import Mathlib

/-!
Verification of the gogfapi gluster client binding (`gfapi/volume.go`).

Go strings are modelled as `List Char` (one `Char` per byte; all paths in
play are ASCII).  Machine integers are modelled as `Int`/`Nat`.  The remote
glusterfs primitives (`glfs_*`) are external collaborators; where a claim
depends on their behaviour they are either kept abstract (an oracle the
theorem quantifies over) or modelled from the specification, as marked in
the individual doc comments.
-/

namespace Gfapi

/-- POSIX error numbers used by the binding (`syscall.Exxx` in the source). -/
inductive Errno
  | EEXIST | ENOENT | ENOTDIR | EISDIR | EACCES | ERANGE | EINVAL | ENODATA
  deriving DecidableEq, Repr

/-- Model of `os.PathError`: operation name, path, underlying cause
(`Err` is `none` when the wrapped error is nil). -/
structure PathErr where
  Op : String
  Path : List Char
  Err : Option Errno
  deriving DecidableEq, Repr

/-- Model of the `error` values produced by the binding: a structured
`os.PathError`, a bare errno (as returned by cgo), or a plain message. -/
inductive GError
  | path (e : PathErr)
  | errno (e : Errno)
  | msg (s : String)
  deriving DecidableEq, Repr

/-- Minimal model of `os.FileInfo` as consumed by `volume.go`
(only `IsDir()` and the name are ever inspected). -/
structure FileInfo where
  Name : List Char
  IsDir : Bool
  deriving DecidableEq, Repr

/-! ## Path scanning used by `Volume.MkdirAll` -/

/-- `os.IsPathSeparator` on the unix build: only `/` separates. -/
def isPathSeparator (c : Char) : Bool := c = '/'

/-- Index `i` computed by the first loop of `MkdirAll`
(`for i > 0 && os.IsPathSeparator(path[i-1]) { i-- }`):
the length of `path` with its trailing separators stripped. -/
def stripIndex (p : List Char) : Nat :=
  p.length - (p.reverse.takeWhile isPathSeparator).length

/-- Index `j` computed by the second loop of `MkdirAll`
(`for j > 0 && !os.IsPathSeparator(path[j-1]) { j-- }`):
the start of the last path element of the separator-stripped path. -/
def elemStart (p : List Char) : Nat :=
  stripIndex p -
    ((p.take (stripIndex p)).reverse.takeWhile (fun c => !isPathSeparator c)).length

theorem stripIndex_le (p : List Char) : stripIndex p ≤ p.length :=
  Nat.sub_le _ _

theorem elemStart_le_stripIndex (p : List Char) : elemStart p ≤ stripIndex p :=
  Nat.sub_le _ _

theorem elemStart_le (p : List Char) : elemStart p ≤ p.length :=
  le_trans (elemStart_le_stripIndex p) (stripIndex_le p)

/-! ## The abstract stat/mkdir capability consumed by `MkdirAll` -/

/-- The three remote operations `Volume.MkdirAll` drives, kept abstract:
a state type `σ` threads the (remote) world through the calls, so both the
concrete model filesystem below and adversarial/racy worlds are instances.
`Stat` is `Volume.Stat` (follows symlinks), `Lstat` is `Volume.Lstat`
(does not follow), `Mkdir` is `Volume.Mkdir` (creates exactly one
directory); each returns its Go result together with the successor state. -/
structure FsOps (σ : Type) where
  Stat : σ → List Char → Except GError FileInfo × σ
  Lstat : σ → List Char → Except GError FileInfo × σ
  Mkdir : σ → List Char → Nat → Option GError × σ

/-- `Volume.MkdirAll` translated from `volume.go`.  The extra `Nat` in the
result is ghost instrumentation counting the invocations of the `Mkdir`
primitive (the code itself returns only the error).  Control flow follows
the source: fast-path `Stat` (directory ⇒ done, non-directory ⇒
`&os.PathError{"mkdir", path, syscall.ENOTDIR}`), strip trailing
separators and scan back over the last element, recursively ensure the
parent when `j > 1`, then `Mkdir` the path itself and, should that fail,
double-check with `Lstat` before giving up with the original error. -/
def MkdirAll (ops : FsOps σ) (s : σ) (p : List Char) (perm : Nat) :
    Except GError Unit × σ × Nat :=
  match ops.Stat s p with
  | (.ok dir, s1) =>
    if dir.IsDir then (.ok (), s1, 0)
    else (.error (.path ⟨"mkdir", p, some .ENOTDIR⟩), s1, 0)
  | (.error _, s1) =>
    let j := elemStart p
    let parent : Except GError Unit × σ × Nat :=
      if h : 1 < j then MkdirAll ops s1 (p.take (j - 1)) perm
      else (.ok (), s1, 0)
    match parent with
    | (.error e, s2, k) => (.error e, s2, k)
    | (.ok _, s2, k) =>
      match ops.Mkdir s2 p perm with
      | (none, s3) => (.ok (), s3, k + 1)
      | (some e, s3) =>
        match ops.Lstat s3 p with
        | (.ok dir1, s4) =>
          if dir1.IsDir then (.ok (), s4, k + 1) else (.error e, s4, k + 1)
        | (.error _, s4) => (.error e, s4, k + 1)
termination_by p.length
decreasing_by
  have hj := elemStart_le p
  simp only [List.length_take]
  omega

/-! ### One-step unfolding of `MkdirAll` along each control path -/

/-- Slow path, parent recursion fails: the parent's error propagates and
no `Mkdir` beyond the parent's is attempted. -/
theorem MkdirAll_slow_parent_err {σ : Type} {ops : FsOps σ} {s s1 s2 : σ}
    {p : List Char} {perm : Nat} {e0 e : GError} {k : Nat}
    (hstat : ops.Stat s p = (.error e0, s1))
    (hj : 1 < elemStart p)
    (hpar : MkdirAll ops s1 (p.take (elemStart p - 1)) perm = (.error e, s2, k)) :
    MkdirAll ops s p perm = (.error e, s2, k) := by
  rw [MkdirAll, hstat]
  simp only [dif_pos hj, hpar]

/-- Slow path, parent chain ensured, `Mkdir` of the target succeeds. -/
theorem MkdirAll_slow_mkok {σ : Type} {ops : FsOps σ} {s s1 s2 s3 : σ}
    {p : List Char} {perm : Nat} {e0 : GError} {k : Nat}
    (hstat : ops.Stat s p = (.error e0, s1))
    (hpar : if 1 < elemStart p then
        MkdirAll ops s1 (p.take (elemStart p - 1)) perm = (.ok (), s2, k)
      else s2 = s1 ∧ k = 0)
    (hmk : ops.Mkdir s2 p perm = (none, s3)) :
    MkdirAll ops s p perm = (.ok (), s3, k + 1) := by
  rw [MkdirAll, hstat]
  by_cases hj : 1 < elemStart p
  · rw [if_pos hj] at hpar
    simp only [dif_pos hj, hpar, hmk]
  · rw [if_neg hj] at hpar
    obtain ⟨rfl, rfl⟩ := hpar
    simp only [dif_neg hj, hmk]

/-- Slow path, parent chain ensured, `Mkdir` of the target fails:
`MkdirAll` re-checks with `Lstat` and succeeds exactly when the re-check
reports a directory, otherwise it returns the original creation error
(never the re-check's own error). -/
theorem MkdirAll_slow_mkfail_lstat {σ : Type} {ops : FsOps σ} {s s1 s2 s3 s4 : σ}
    {p : List Char} {perm : Nat} {e0 e : GError} {k : Nat}
    {r : Except GError FileInfo}
    (hstat : ops.Stat s p = (.error e0, s1))
    (hpar : if 1 < elemStart p then
        MkdirAll ops s1 (p.take (elemStart p - 1)) perm = (.ok (), s2, k)
      else s2 = s1 ∧ k = 0)
    (hmk : ops.Mkdir s2 p perm = (some e, s3))
    (hlst : ops.Lstat s3 p = (r, s4)) :
    MkdirAll ops s p perm =
      ((match r with
        | .ok fi => if fi.IsDir then .ok () else .error e
        | .error _ => .error e), s4, k + 1) := by
  rw [MkdirAll, hstat]
  by_cases hj : 1 < elemStart p
  · rw [if_pos hj] at hpar
    simp only [dif_pos hj, hpar, hmk, hlst]
    rcases r with e1 | fi
    · simp
    · by_cases hd : fi.IsDir <;> simp [hd]
  · rw [if_neg hj] at hpar
    obtain ⟨rfl, rfl⟩ := hpar
    simp only [dif_neg hj, hmk, hlst]
    rcases r with e1 | fi
    · simp
    · by_cases hd : fi.IsDir <;> simp [hd]

/-! ## Logical path components

To reason about which filesystem object a path string denotes, paths are
broken into components: split on `/`, dropping empty components and `.`
(the resolutions a POSIX server performs on the wire path). -/

/-- Split a path on `/` (groups between separators, empties included). -/
def splitSlash : List Char → List (List Char)
  | [] => [[]]
  | c :: rest =>
    if isPathSeparator c then [] :: splitSlash rest
    else
      match splitSlash rest with
      | [] => [[c]]
      | g :: gs => (c :: g) :: gs

/-- A component that names a real path step (not empty, not `.`). -/
def isRealComp (c : List Char) : Bool := decide (c ≠ [] ∧ c ≠ ['.'])

/-- The logical components of a path. -/
def components (p : List Char) : List (List Char) :=
  (splitSlash p).filter isRealComp

theorem splitSlash_ne_nil (p : List Char) : splitSlash p ≠ [] := by
  induction p with
  | nil => simp [splitSlash]
  | cons c rest ih =>
    simp only [splitSlash]
    split
    · simp
    · split
      · simp
      · simp

theorem splitSlash_append_sep (xs ys : List Char) :
    splitSlash (xs ++ '/' :: ys) = splitSlash xs ++ splitSlash ys := by
  induction xs with
  | nil => simp [splitSlash, isPathSeparator]
  | cons c xs' ih =>
    simp only [List.cons_append, splitSlash, List.append_eq]
    split
    · rw [ih]; rfl
    · rw [ih]
      rcases h : splitSlash xs' with _ | ⟨g, gs⟩
      · exact absurd h (splitSlash_ne_nil xs')
      · simp

theorem components_append_sep (xs ys : List Char) :
    components (xs ++ '/' :: ys) = components xs ++ components ys := by
  simp [components, splitSlash_append_sep, List.filter_append]

theorem components_nil : components [] = [] := by decide

theorem components_all_sep (ys : List Char) (h : ∀ c ∈ ys, isPathSeparator c) :
    components ys = [] := by
  induction ys with
  | nil => exact components_nil
  | cons c ys' ih =>
    have hc : c = '/' := by
      have := h c (by simp)
      simpa [isPathSeparator] using this
    subst hc
    have : components ([] ++ '/' :: ys') = components [] ++ components ys' :=
      components_append_sep [] ys'
    simp only [List.nil_append] at this
    rw [this, components_nil, List.nil_append]
    exact ih (fun c hc => h c (by simp [hc]))

theorem components_append_all_sep (xs ys : List Char)
    (h : ∀ c ∈ ys, isPathSeparator c) :
    components (xs ++ ys) = components xs := by
  induction ys generalizing xs with
  | nil => simp
  | cons c ys' ih =>
    have hc : c = '/' := by
      have := h c (by simp)
      simpa [isPathSeparator] using this
    subst hc
    rw [components_append_sep, components_all_sep ys'
      (fun c hc => h c (by simp [hc])), List.append_nil]

theorem splitSlash_sep_free (xs : List Char) (h : ∀ c ∈ xs, ¬ isPathSeparator c) :
    splitSlash xs = [xs] := by
  induction xs with
  | nil => rfl
  | cons c xs' ih =>
    simp only [splitSlash]
    rw [if_neg (h c (by simp))]
    rw [ih (fun c hc => h c (by simp [hc]))]

theorem components_sep_free (xs : List Char) (h : ∀ c ∈ xs, ¬ isPathSeparator c) :
    components xs = if isRealComp xs then [xs] else [] := by
  rw [components, splitSlash_sep_free xs h]
  by_cases hr : isRealComp xs
  · simp [hr]
  · simp [List.filter, hr]

/-! ## Decomposing a path at the indices `MkdirAll` computes -/

/-- The path with its trailing separators stripped (`path[0:i]`). -/
def strippedPart (p : List Char) : List Char :=
  (p.reverse.dropWhile isPathSeparator).reverse

/-- The last element of the stripped path (`path[j:i]`). -/
def lastElem (p : List Char) : List Char :=
  ((strippedPart p).reverse.takeWhile (fun c => !isPathSeparator c)).reverse

/-- The stripped path up to the last element (`path[0:j]`). -/
def parentPart (p : List Char) : List Char :=
  ((strippedPart p).reverse.dropWhile (fun c => !isPathSeparator c)).reverse

theorem rev_split_gen (pr : Char → Bool) (p : List Char) :
    p = (p.reverse.dropWhile pr).reverse ++ (p.reverse.takeWhile pr).reverse := by
  have h := List.takeWhile_append_dropWhile (p := pr) (l := p.reverse)
  calc p = p.reverse.reverse := (List.reverse_reverse p).symm
    _ = (p.reverse.takeWhile pr ++ p.reverse.dropWhile pr).reverse := by rw [h]
    _ = _ := by rw [List.reverse_append]

theorem len_split_gen (pr : Char → Bool) (p : List Char) :
    (p.reverse.takeWhile pr).length + (p.reverse.dropWhile pr).length = p.length := by
  have h : (p.reverse.takeWhile pr ++ p.reverse.dropWhile pr).length = p.reverse.length := by
    rw [List.takeWhile_append_dropWhile]
  simp only [List.length_append, List.length_reverse] at h
  exact h

theorem mem_takeWhile_pred (pr : α → Bool) (l : List α) :
    ∀ a ∈ l.takeWhile pr, pr a := by
  induction l with
  | nil => simp
  | cons c l' ih =>
    intro a ha
    by_cases hc : pr c
    · rw [List.takeWhile_cons_of_pos hc] at ha
      rcases List.mem_cons.mp ha with h | h
      · exact h ▸ hc
      · exact ih a h
    · rw [List.takeWhile_cons_of_neg hc] at ha
      exact absurd ha (List.not_mem_nil a)

theorem dropWhile_head_not (pr : α → Bool) (l : List α) (a : α) (t : List α)
    (h : l.dropWhile pr = a :: t) : pr a = false := by
  induction l with
  | nil => simp [List.dropWhile] at h
  | cons c l' ih =>
    by_cases hc : pr c
    · rw [List.dropWhile_cons_of_pos hc] at h
      exact ih h
    · rw [List.dropWhile_cons_of_neg hc] at h
      cases h
      simpa using hc

theorem stripIndex_eq_length (p : List Char) :
    stripIndex p = (strippedPart p).length := by
  have := len_split_gen isPathSeparator p
  unfold stripIndex strippedPart
  simp only [List.length_reverse]
  omega

theorem strip_split (p : List Char) :
    p = strippedPart p ++ (p.reverse.takeWhile isPathSeparator).reverse :=
  rev_split_gen isPathSeparator p

theorem take_stripIndex (p : List Char) :
    p.take (stripIndex p) = strippedPart p := by
  have hlen : (strippedPart p).length = stripIndex p := (stripIndex_eq_length p).symm
  have h2 : (strippedPart p ++ (p.reverse.takeWhile isPathSeparator).reverse).take
      (stripIndex p) = strippedPart p := List.take_left' hlen
  rw [← strip_split p] at h2
  exact h2

theorem stripped_split (p : List Char) :
    strippedPart p = parentPart p ++ lastElem p := by
  have h := rev_split_gen (fun c => !isPathSeparator c) (strippedPart p)
  exact h

theorem elemStart_eq_length (p : List Char) :
    elemStart p = (parentPart p).length := by
  have h1 := len_split_gen (fun c => !isPathSeparator c) (strippedPart p)
  have h2 := stripIndex_eq_length p
  unfold elemStart parentPart
  rw [take_stripIndex]
  simp only [List.length_reverse] at h1 ⊢
  omega

theorem path_three_split (p : List Char) :
    p = parentPart p ++ (lastElem p ++ (p.reverse.takeWhile isPathSeparator).reverse) := by
  have h1 := strip_split p
  have h2 := stripped_split p
  calc p = strippedPart p ++ (p.reverse.takeWhile isPathSeparator).reverse := h1
    _ = (parentPart p ++ lastElem p) ++ (p.reverse.takeWhile isPathSeparator).reverse := by
        rw [← h2]
    _ = _ := by rw [List.append_assoc]

theorem take_elemStart (p : List Char) :
    p.take (elemStart p) = parentPart p := by
  have h2 : (parentPart p ++
      (lastElem p ++ (p.reverse.takeWhile isPathSeparator).reverse)).take
        (elemStart p) = parentPart p := List.take_left' (elemStart_eq_length p).symm
  rw [← path_three_split p] at h2
  exact h2

theorem parentPart_last_sep (p : List Char) (h : 1 ≤ elemStart p) :
    parentPart p = (parentPart p).dropLast ++ ['/'] := by
  have hlen := elemStart_eq_length p
  rcases hr : (strippedPart p).reverse.dropWhile (fun c => !isPathSeparator c) with
    _ | ⟨a, t⟩
  · exfalso
    have hpp : parentPart p = [] := by
      unfold parentPart
      rw [hr]
      rfl
    rw [hpp] at hlen
    simp at hlen
    omega
  · have ha := dropWhile_head_not _ _ _ _ hr
    have ha' : a = '/' := by simpa [isPathSeparator] using ha
    have hp : parentPart p = t.reverse ++ ['/'] := by
      unfold parentPart
      rw [hr, ha']
      simp
    rw [hp]
    simp

theorem take_elemStart_sub_one (p : List Char) (h : 1 ≤ elemStart p) :
    p.take (elemStart p - 1) = (parentPart p).dropLast := by
  have hlen := elemStart_eq_length p
  have h1 : p.take (elemStart p - 1) = (p.take (elemStart p)).take (elemStart p - 1) := by
    rw [List.take_take]
    congr 1
    omega
  rw [h1, take_elemStart]
  have h2 := parentPart_last_sep p h
  have hplen : (parentPart p).dropLast.length = elemStart p - 1 := by
    simp only [List.length_dropLast]
    omega
  conv_lhs => rw [h2]
  exact List.take_left' hplen

theorem lastElem_sep_free (p : List Char) :
    ∀ c ∈ lastElem p, ¬ isPathSeparator c := by
  intro c hc
  unfold lastElem at hc
  rw [List.mem_reverse] at hc
  have := mem_takeWhile_pred _ _ c hc
  simpa using this

theorem trailing_all_sep (p : List Char) :
    ∀ c ∈ (p.reverse.takeWhile isPathSeparator).reverse, isPathSeparator c := by
  intro c hc
  rw [List.mem_reverse] at hc
  exact mem_takeWhile_pred _ _ c hc

/-- The components of a path split at the parent/last-element boundary
computed by `MkdirAll`, when a parent boundary exists (`j ≥ 1`). -/
theorem components_decomp (p : List Char) (h : 1 ≤ elemStart p) :
    components p = components (p.take (elemStart p - 1)) ++ components (lastElem p) := by
  have h3 := path_three_split p
  have hpp := parentPart_last_sep p h
  have htail : components (lastElem p ++ (p.reverse.takeWhile isPathSeparator).reverse) =
      components (lastElem p) :=
    components_append_all_sep _ _ (trailing_all_sep p)
  calc components p
      = components (parentPart p ++
          (lastElem p ++ (p.reverse.takeWhile isPathSeparator).reverse)) := by rw [← h3]
    _ = components ((parentPart p).dropLast ++ '/' ::
          (lastElem p ++ (p.reverse.takeWhile isPathSeparator).reverse)) := by
        conv_lhs => rw [hpp]
        rw [List.append_assoc]
        rfl
    _ = components (parentPart p).dropLast ++
          components (lastElem p ++ (p.reverse.takeWhile isPathSeparator).reverse) :=
        components_append_sep _ _
    _ = components (p.take (elemStart p - 1)) ++ components (lastElem p) := by
        rw [take_elemStart_sub_one p h, htail]

/-- With no parent boundary (`j = 0`), the whole path is trailing
separators around the single last element. -/
theorem components_decomp_zero (p : List Char) (h : elemStart p = 0) :
    components p = components (lastElem p) := by
  have h3 := path_three_split p
  have hpp : parentPart p = [] := by
    have := elemStart_eq_length p
    rw [h] at this
    exact (List.length_eq_zero.mp this.symm)
  rw [hpp, List.nil_append] at h3
  calc components p
      = components (lastElem p ++ (p.reverse.takeWhile isPathSeparator).reverse) := by
        rw [← h3]
    _ = components (lastElem p) :=
        components_append_all_sep _ _ (trailing_all_sep p)

theorem components_lastElem (p : List Char) :
    components (lastElem p) = if isRealComp (lastElem p) then [lastElem p] else [] :=
  components_sep_free _ (lastElem_sep_free p)

/-- When `MkdirAll` skips the parent recursion (`j ≤ 1`), the path has at
most one logical component. -/
theorem components_length_le_one (p : List Char) (h : elemStart p ≤ 1) :
    (components p).length ≤ 1 := by
  rcases Nat.lt_or_ge (elemStart p) 1 with h0 | h1
  · have h0' : elemStart p = 0 := by omega
    rw [components_decomp_zero p h0', components_lastElem]
    split
    · simp
    · simp
  · have hj : elemStart p = 1 := by omega
    rw [components_decomp p (by omega), hj]
    simp only [Nat.sub_self, List.take_zero, components_nil, List.nil_append]
    rw [components_lastElem]
    split
    · simp
    · simp

/-! ## The model filesystem

Modelled from the spec: the remote storage cluster's namespace as seen
through `glfs_stat` / `glfs_lstat` / `glfs_mkdir` (external collaborators,
§6).  The spec characterises the create primitive as one that "creates
exactly one directory and fails if its parent is missing" (§4.4), and stat
as the existence/kind probe.  A filesystem is a set of existing
directories and regular files, each identified by its component list; the
root (empty component list) always exists.  Symbolic links are not
modelled, so `Lstat` resolves exactly like `Stat` (differing only in how
the Go wrappers dress up errors, as in the source). -/
structure ModelFS where
  dirs : List (List (List Char))
  files : List (List (List Char))
  deriving DecidableEq, Repr

/-- Resolve a component list: `some true` = directory, `some false` =
regular file, `none` = no such entry. -/
def ModelFS.lookup (fs : ModelFS) (c : List (List Char)) : Option Bool :=
  if c = [] then some true
  else if c ∈ fs.files then some false
  else if c ∈ fs.dirs then some true
  else none

/-- Modelled from the spec: `Volume.Stat` against the model filesystem
(wraps failure as `&os.PathError{"stat", name, err}` as the source does). -/
def mstat (fs : ModelFS) (p : List Char) : Except GError FileInfo × ModelFS :=
  match fs.lookup (components p) with
  | some b => (.ok ⟨p, b⟩, fs)
  | none => (.error (.path ⟨"stat", p, some .ENOENT⟩), fs)

/-- Modelled from the spec: `Volume.Lstat` against the model filesystem
(no symlinks are modelled, so resolution equals `mstat`; the source's
`Lstat` returns the bare errno rather than a `PathError`). -/
def mlstat (fs : ModelFS) (p : List Char) : Except GError FileInfo × ModelFS :=
  match fs.lookup (components p) with
  | some b => (.ok ⟨p, b⟩, fs)
  | none => (.error (.errno .ENOENT), fs)

/-- Modelled from the spec: `Volume.Mkdir` against the model filesystem —
creates exactly one directory; fails if the path already exists, or its
parent is missing or is not a directory (error dressed as
`&os.PathError{"mkdir", name, err}` as in the source). -/
def mmkdir (fs : ModelFS) (p : List Char) (_perm : Nat) :
    Option GError × ModelFS :=
  let c := components p
  match fs.lookup c with
  | some _ => (some (.path ⟨"mkdir", p, some .EEXIST⟩), fs)
  | none =>
    match fs.lookup c.dropLast with
    | some true => (none, { fs with dirs := c :: fs.dirs })
    | some false => (some (.path ⟨"mkdir", p, some .ENOTDIR⟩), fs)
    | none => (some (.path ⟨"mkdir", p, some .ENOENT⟩), fs)

/-- The model instantiation of the stat/mkdir capability. -/
def ModelOps : FsOps ModelFS := ⟨mstat, mlstat, mmkdir⟩

/-- Well-formed model filesystem: entries are not the root, parents of
entries are directories (or the root), and no path is both a directory
and a file. -/
def ModelFS.WF (fs : ModelFS) : Prop :=
  (∀ c ∈ fs.dirs, c ≠ [] ∧ (c.dropLast = [] ∨ c.dropLast ∈ fs.dirs) ∧ c ∉ fs.files) ∧
  (∀ c ∈ fs.files, c ≠ [] ∧ (c.dropLast = [] ∨ c.dropLast ∈ fs.dirs))

instance (fs : ModelFS) : Decidable fs.WF := by
  unfold ModelFS.WF
  infer_instance

/-! ## Prefix utilities and well-formedness consequences -/

theorem prefix_dropLast_of_ne {α : Type} {d c : List α} (h : d <+: c) (hne : d ≠ c) :
    d <+: c.dropLast := by
  obtain ⟨s, rfl⟩ := h
  rcases s with _ | ⟨a, s'⟩
  · simp at hne
  · rw [List.dropLast_append_of_ne_nil d (by simp)]
    exact List.prefix_append d _

theorem strict_prefix_length_lt {α : Type} {d c : List α} (h : d <+: c) (hne : d ≠ c) :
    d.length < c.length := by
  obtain ⟨s, rfl⟩ := h
  rcases s with _ | ⟨a, s'⟩
  · simp at hne
  · simp

/-- In a well-formed filesystem every nonempty prefix of a directory is a
directory. -/
theorem ModelFS.WF.dirs_prefix {fs : ModelFS} (hwf : fs.WF) :
    ∀ n (c : List (List Char)), c.length ≤ n → c ∈ fs.dirs →
      ∀ d, d ≠ [] → d <+: c → d ∈ fs.dirs := by
  intro n
  induction n with
  | zero =>
    intro c hc hmem d hd hpre
    have hne := (hwf.1 c hmem).1
    have : c = [] := List.length_eq_zero.mp (Nat.le_zero.mp hc)
    exact absurd this hne
  | succ n ih =>
    intro c hc hmem d hd hpre
    by_cases hdc : d = c
    · exact hdc ▸ hmem
    · have hpre' := prefix_dropLast_of_ne hpre hdc
      rcases (hwf.1 c hmem).2.1 with h0 | hmem'
      · rw [h0] at hpre'
        exact absurd (List.prefix_nil.mp hpre') hd
      · refine ih c.dropLast ?_ hmem' d hd hpre'
        have hne := (hwf.1 c hmem).1
        have h1 : 1 ≤ c.length := List.length_pos.mpr hne
        simp only [List.length_dropLast]
        omega

/-- In a well-formed filesystem nothing lives strictly below a file. -/
theorem ModelFS.WF.no_entry_above_file {fs : ModelFS} (hwf : fs.WF)
    {f c : List (List Char)} (hf : f ∈ fs.files) (hfne : f ≠ [])
    (hpre : f <+: c) (hne : f ≠ c) :
    c ∉ fs.dirs ∧ c ∉ fs.files := by
  constructor
  · intro hc
    have hfd : f ∈ fs.dirs := hwf.dirs_prefix c.length c le_rfl hc f hfne hpre
    exact (hwf.1 f hfd).2.2 hf
  · intro hc
    have hpre' := prefix_dropLast_of_ne hpre hne
    rcases (hwf.2 c hc).2 with h0 | hd
    · rw [h0] at hpre'
      exact hfne (List.prefix_nil.mp hpre')
    · have hfd : f ∈ fs.dirs :=
        hwf.dirs_prefix c.dropLast.length c.dropLast le_rfl hd f hfne hpre'
      exact (hwf.1 f hfd).2.2 hf

/-! ## Unfolding `MkdirAll` over the model filesystem -/

theorem lookup_none_elim {fs : ModelFS} {c : List (List Char)}
    (h : fs.lookup c = none) : c ≠ [] ∧ c ∉ fs.files ∧ c ∉ fs.dirs := by
  unfold ModelFS.lookup at h
  split_ifs at h with h1 h2 h3
  · exact ⟨h1, h2, h3⟩

theorem lookup_file {fs : ModelFS} {c : List (List Char)}
    (hne : c ≠ []) (hc : c ∈ fs.files) : fs.lookup c = some false := by
  unfold ModelFS.lookup
  rw [if_neg hne, if_pos hc]

/-- Fast path of `MkdirAll`: the target already resolves to a directory. -/
theorem MkdirAll_model_stat_dir {fs : ModelFS} {p : List Char} {perm : Nat}
    (hlk : fs.lookup (components p) = some true) :
    MkdirAll ModelOps fs p perm = (.ok (), fs, 0) := by
  rw [MkdirAll]
  simp [ModelOps, mstat, hlk]

/-- Fast path of `MkdirAll`: the target already resolves to a non-directory. -/
theorem MkdirAll_model_stat_file {fs : ModelFS} {p : List Char} {perm : Nat}
    (hlk : fs.lookup (components p) = some false) :
    MkdirAll ModelOps fs p perm =
      (.error (.path ⟨"mkdir", p, some .ENOTDIR⟩), fs, 0) := by
  rw [MkdirAll]
  simp [ModelOps, mstat, hlk]

theorem ModelOps_Stat : ModelOps.Stat = mstat := rfl

theorem ModelOps_Lstat : ModelOps.Lstat = mlstat := rfl

theorem ModelOps_Mkdir : ModelOps.Mkdir = mmkdir := rfl

/-- The model `Stat` fails when the path does not resolve. -/
theorem mstat_none {fs : ModelFS} {p : List Char}
    (hlk : fs.lookup (components p) = none) :
    ModelOps.Stat fs p = (.error (.path ⟨"stat", p, some .ENOENT⟩), fs) := by
  simp [ModelOps, mstat, hlk]

/-- A successful model `Mkdir` required an absent target under an existing
directory parent, and registered exactly the target directory. -/
theorem mmkdir_ok {fs fs' : ModelFS} {p : List Char} {perm : Nat}
    (h : mmkdir fs p perm = (none, fs')) :
    fs.lookup (components p) = none ∧
    fs.lookup (components p).dropLast = some true ∧
    fs' = { fs with dirs := components p :: fs.dirs } := by
  unfold mmkdir at h
  rcases h1 : fs.lookup (components p) with _ | b
  · simp only [h1] at h
    rcases h2 : fs.lookup (components p).dropLast with _ | b2
    · simp [h2] at h
    · rcases b2 with _ | _
      · simp [h2] at h
      · simp only [h2] at h
        exact ⟨rfl, rfl, (Prod.mk.injEq _ _ _ _).mp h |>.2.symm⟩
  · simp [h1] at h

/-- A failing model `Mkdir` leaves the filesystem unchanged. -/
theorem mmkdir_fail_state {fs fs' : ModelFS} {p : List Char} {perm : Nat} {e : GError}
    (h : mmkdir fs p perm = (some e, fs')) : fs' = fs := by
  unfold mmkdir at h
  rcases h1 : fs.lookup (components p) with _ | b
  · simp only [h1] at h
    rcases h2 : fs.lookup (components p).dropLast with _ | b2
    · simp only [h2] at h
      exact ((Prod.mk.injEq _ _ _ _).mp h).2.symm
    · rcases b2 with _ | _
      · simp only [h2] at h
        exact ((Prod.mk.injEq _ _ _ _).mp h).2.symm
      · simp only [h2] at h
        exact absurd ((Prod.mk.injEq _ _ _ _).mp h).1 (by simp)
  · simp only [h1] at h
    exact ((Prod.mk.injEq _ _ _ _).mp h).2.symm

/-- A successful model `Lstat` reveals the resolution and keeps the state. -/
theorem mlstat_ok {fs s4 : ModelFS} {p : List Char} {fi : FileInfo}
    (h : mlstat fs p = (.ok fi, s4)) :
    s4 = fs ∧ fs.lookup (components p) = some fi.IsDir := by
  unfold mlstat at h
  rcases h1 : fs.lookup (components p) with _ | b
  · simp only [h1] at h
    exact absurd ((Prod.mk.injEq _ _ _ _).mp h).1 (by simp)
  · simp only [h1] at h
    obtain ⟨hfi, hs⟩ := (Prod.mk.injEq _ _ _ _).mp h
    have hfi' : (⟨p, b⟩ : FileInfo) = fi := by injection hfi
    refine ⟨hs.symm, ?_⟩
    rw [← hfi']

/-- A failing model `Lstat` keeps the state. -/
theorem mlstat_err {fs s4 : ModelFS} {p : List Char} {e : GError}
    (h : mlstat fs p = (.error e, s4)) : s4 = fs := by
  unfold mlstat at h
  rcases h1 : fs.lookup (components p) with _ | b
  · simp only [h1] at h
    exact ((Prod.mk.injEq _ _ _ _).mp h).2.symm
  · simp only [h1] at h
    exact absurd ((Prod.mk.injEq _ _ _ _).mp h).1 (by simp)

/-- Registering a fresh directory makes it resolve as a directory. -/
theorem lookup_cons_dir {fs : ModelFS} {c : List (List Char)}
    (hne : c ≠ []) (hnf : c ∉ fs.files) :
    ModelFS.lookup { fs with dirs := c :: fs.dirs } c = some true := by
  unfold ModelFS.lookup
  rw [if_neg hne,
    if_neg (show ¬ c ∈ ({ fs with dirs := c :: fs.dirs } : ModelFS).files from hnf),
    if_pos (show c ∈ ({ fs with dirs := c :: fs.dirs } : ModelFS).dirs from by simp)]

/-- After any successful `MkdirAll` the target path resolves as a
directory in the resulting filesystem. -/
theorem MkdirAll_model_ok_lookup {fs fs' : ModelFS} {p : List Char} {perm k : Nat}
    (h : MkdirAll ModelOps fs p perm = (.ok (), fs', k)) :
    fs'.lookup (components p) = some true := by
  rcases hlk : fs.lookup (components p) with _ | b
  · have hstat : ModelOps.Stat fs p = (.error (.path ⟨"stat", p, some .ENOENT⟩), fs) :=
      mstat_none hlk
    rw [MkdirAll, hstat] at h
    simp only [ModelOps_Mkdir, ModelOps_Lstat] at h
    by_cases hj : 1 < elemStart p
    · rcases hpar : MkdirAll ModelOps fs (p.take (elemStart p - 1)) perm with ⟨res, s2, k'⟩
      simp only [dif_pos hj, hpar] at h
      rcases res with e | u
      · simp at h
      · rcases hmk : mmkdir s2 p perm with ⟨oe, s3⟩
        rcases oe with _ | e
        · simp only [hmk] at h
          have hfs : s3 = fs' := congrArg (fun t => t.2.1) h
          obtain ⟨hl1, hl2, hfs3⟩ := mmkdir_ok hmk
          have hcne : components p ≠ [] := (lookup_none_elim hl1).1
          have hcnf : components p ∉ s2.files := (lookup_none_elim hl1).2.1
          rw [← hfs, hfs3]
          exact lookup_cons_dir hcne hcnf
        · rcases hls : mlstat s3 p with ⟨r, s4⟩
          rcases r with e1 | fi
          · simp only [hmk, hls] at h
            simp at h
          · simp only [hmk, hls] at h
            by_cases hd : fi.IsDir
            · simp only [if_pos hd] at h
              have hs4 : s4 = fs' := congrArg (fun t => t.2.1) h
              obtain ⟨hs4', hres⟩ := mlstat_ok hls
              rw [← hs4, hs4']
              rw [hres, hd]
            · simp only [if_neg hd] at h
              simp at h
    · simp only [dif_neg hj] at h
      rcases hmk : mmkdir fs p perm with ⟨oe, s3⟩
      rcases oe with _ | e
      · simp only [hmk] at h
        have hfs : s3 = fs' := congrArg (fun t => t.2.1) h
        obtain ⟨hl1, hl2, hfs3⟩ := mmkdir_ok hmk
        have hcne : components p ≠ [] := (lookup_none_elim hl1).1
        have hcnf : components p ∉ fs.files := (lookup_none_elim hl1).2.1
        rw [← hfs, hfs3]
        exact lookup_cons_dir hcne hcnf
      · rcases hls : mlstat s3 p with ⟨r, s4⟩
        rcases r with e1 | fi
        · simp only [hmk, hls] at h
          simp at h
        · simp only [hmk, hls] at h
          by_cases hd : fi.IsDir
          · simp only [if_pos hd] at h
            have hs4 : s4 = fs' := congrArg (fun t => t.2.1) h
            obtain ⟨hs4', hres⟩ := mlstat_ok hls
            rw [← hs4, hs4']
            rw [hres, hd]
          · simp only [if_neg hd] at h
            simp at h
  · rcases b with _ | _
    · rw [MkdirAll_model_stat_file hlk] at h
      simp at h
    · rw [MkdirAll_model_stat_dir hlk] at h
      have hfs : fs = fs' := congrArg (fun t => t.2.1) h
      rw [← hfs]
      exact hlk

/-- With a file occupying the target or an ancestor component, `MkdirAll`
fails with a `"mkdir" … ENOTDIR` path error, never invokes the create
primitive, and leaves the filesystem unchanged. -/
theorem MkdirAll_model_file_blocks (perm : Nat) :
    ∀ (n : Nat) (p : List Char) (fs : ModelFS), p.length ≤ n → fs.WF →
      (∃ f, f ≠ [] ∧ f <+: components p ∧ f ∈ fs.files) →
      ∃ q, MkdirAll ModelOps fs p perm =
        (.error (.path ⟨"mkdir", q, some .ENOTDIR⟩), fs, 0) := by
  intro n
  induction n with
  | zero =>
    intro p fs hlen hwf hex
    obtain ⟨f, hfne, hfpre, hfmem⟩ := hex
    have hp : p = [] := List.length_eq_zero.mp (Nat.le_zero.mp hlen)
    subst hp
    rw [components_nil] at hfpre
    exact absurd (List.prefix_nil.mp hfpre) hfne
  | succ n ih =>
    intro p fs hlen hwf hex
    obtain ⟨f, hfne, hfpre, hfmem⟩ := hex
    by_cases hfc : f = components p
    · have hcne : components p ≠ [] := hfc ▸ hfne
      have hlf : fs.lookup (components p) = some false := lookup_file hcne (hfc ▸ hfmem)
      exact ⟨p, MkdirAll_model_stat_file hlf⟩
    · have hne := hwf.no_entry_above_file hfmem hfne hfpre hfc
      have hcne : components p ≠ [] := by
        intro h0
        rw [h0] at hfpre
        exact hfne (List.prefix_nil.mp hfpre)
      have hlk : fs.lookup (components p) = none := by
        unfold ModelFS.lookup
        rw [if_neg hcne, if_neg hne.2, if_neg hne.1]
      have hstat := mstat_none hlk
      have hflt : f.length < (components p).length := strict_prefix_length_lt hfpre hfc
      have hfl1 : 1 ≤ f.length := List.length_pos.mpr hfne
      have hj : 1 < elemStart p := by
        by_contra hj'
        have hle := components_length_le_one p (by omega)
        omega
      have hdec := components_decomp p (by omega)
      have hfpre' : f <+: components (p.take (elemStart p - 1)) := by
        rw [hdec] at hfpre
        rcases List.prefix_or_prefix_of_prefix hfpre
          (List.prefix_append (components (p.take (elemStart p - 1)))
            (components (lastElem p))) with h1 | h1
        · exact h1
        · obtain ⟨g, hgf⟩ := h1
          rw [← hgf] at hfpre
          have hgB : g <+: components (lastElem p) :=
            (List.prefix_append_right_inj (components (p.take (elemStart p - 1)))).mp hfpre
          have hlast := components_lastElem p
          by_cases hreal : isRealComp (lastElem p)
          · rw [hlast, if_pos hreal] at hgB
            rcases g with _ | ⟨y, g'⟩
            · rw [← hgf, List.append_nil]
            · rw [List.cons_prefix_cons] at hgB
              obtain ⟨rfl, hg'⟩ := hgB
              have hg'nil : g' = [] := List.prefix_nil.mp hg'
              subst hg'nil
              exfalso
              apply hfc
              rw [← hgf, hdec, hlast, if_pos hreal]
          · rw [hlast, if_neg hreal] at hgB
            have : g = [] := List.prefix_nil.mp hgB
            subst this
            rw [← hgf, List.append_nil]
      have hplen : (p.take (elemStart p - 1)).length ≤ n := by
        have h1 := elemStart_le p
        simp only [List.length_take]
        omega
      obtain ⟨q, hq⟩ := ih (p.take (elemStart p - 1)) fs hplen hwf ⟨f, hfne, hfpre', hfmem⟩
      exact ⟨q, MkdirAll_slow_parent_err hstat hj hq⟩

/-! ## Claim theorems for `Volume.MkdirAll` -/

/-- C1: for every path and permission, when `MkdirAll` reaches the final
creation attempt for the target itself and that attempt fails, it
re-checks the path with the non-following `Lstat`; it returns success
exactly when the re-check reports an existing directory, and otherwise it
returns the original creation error `e` — never the re-check's own error.
The hypotheses spell out the execution up to the failing `Mkdir`: the
initial stat failed, the parent recursion (taken only when `j > 1`)
succeeded, `Mkdir` failed with `e`, and `Lstat` answered `r`. -/
theorem C1_mkdir_failure_recheck {σ : Type} (ops : FsOps σ) (s s1 s2 s3 s4 : σ)
    (p : List Char) (perm : Nat) (e0 e : GError) (k : Nat)
    (r : Except GError FileInfo)
    (hstat : ops.Stat s p = (.error e0, s1))
    (hpar : if 1 < elemStart p then
        MkdirAll ops s1 (p.take (elemStart p - 1)) perm = (.ok (), s2, k)
      else s2 = s1 ∧ k = 0)
    (hmk : ops.Mkdir s2 p perm = (some e, s3))
    (hlst : ops.Lstat s3 p = (r, s4)) :
    ((MkdirAll ops s p perm).1 = .ok () ↔ ∃ fi, r = .ok fi ∧ fi.IsDir = true) ∧
    ((∃ fi, r = .ok fi ∧ fi.IsDir = true) →
      MkdirAll ops s p perm = (.ok (), s4, k + 1)) ∧
    ((¬ ∃ fi, r = .ok fi ∧ fi.IsDir = true) →
      MkdirAll ops s p perm = (.error e, s4, k + 1)) := by
  have hmain := MkdirAll_slow_mkfail_lstat hstat hpar hmk hlst
  rcases r with e1 | fi
  · refine ⟨?_, ?_, ?_⟩
    · rw [hmain]
      simp
    · rintro ⟨fi, hfi, -⟩
      exact absurd hfi (by simp)
    · intro _
      rw [hmain]
  · by_cases hd : fi.IsDir
    · refine ⟨?_, ?_, ?_⟩
      · rw [hmain]
        simp [hd]
      · intro _
        rw [hmain]
        simp [hd]
      · intro hcon
        exact absurd ⟨fi, rfl, hd⟩ hcon
    · refine ⟨?_, ?_, ?_⟩
      · rw [hmain]
        simp [hd]
      · rintro ⟨fi', hfi', hd'⟩
        have heq : fi' = fi := by
          injection hfi' with hq
          exact hq.symm
        subst heq
        exact absurd hd' hd
      · intro _
        rw [hmain]
        simp [hd]

/-- A world in which every remote call fails: stat and lstat with ENOENT,
mkdir with EACCES (used to exercise the error paths of `MkdirAll`). -/
def advOps : FsOps Unit where
  Stat := fun s _ => (.error (.errno .ENOENT), s)
  Lstat := fun s _ => (.error (.errno .ENOENT), s)
  Mkdir := fun s _ _ => (some (.errno .EACCES), s)

/-- C1 witness: in `advOps` on path `"a"`, the creation attempt fails with
EACCES and the `Lstat` re-check also fails; `MkdirAll` propagates the
original EACCES creation error, not the re-check's ENOENT. -/
theorem C1_witness :
    MkdirAll advOps () ['a'] 0 = (.error (.errno .EACCES), (), 1) := by
  have h := C1_mkdir_failure_recheck advOps () () () () () ['a'] 0
    (.errno .ENOENT) (.errno .EACCES) 0 (.error (.errno .ENOENT))
    rfl
    (by rw [if_neg (by decide)]; exact ⟨rfl, rfl⟩)
    rfl
    rfl
  simpa using h.2.2 (by simp)

/-- C2: if a `MkdirAll` call succeeds (producing filesystem `fs'`), the
repeated call is idempotent: its opening stat probe reports an existing
directory, and it returns success immediately — same filesystem, zero
invocations of the `Mkdir` create primitive, no error. -/
theorem C2_mkdirAll_idempotent {fs fs' : ModelFS} {p : List Char} {perm k : Nat}
    (h : MkdirAll ModelOps fs p perm = (.ok (), fs', k)) :
    mstat fs' p = (.ok ⟨p, true⟩, fs') ∧
    MkdirAll ModelOps fs' p perm = (.ok (), fs', 0) := by
  have hlk := MkdirAll_model_ok_lookup h
  refine ⟨?_, MkdirAll_model_stat_dir hlk⟩
  unfold mstat
  rw [hlk]

/-- C2 witness: creating `"a/b"` in the empty filesystem succeeds with two
`Mkdir` calls; the second `MkdirAll` returns success with zero `Mkdir`
calls and the same filesystem. -/
theorem C2_witness :
    MkdirAll ModelOps ⟨[], []⟩ ['a', '/', 'b'] 0 =
      (.ok (), ⟨[[['a'], ['b']], [['a']]], []⟩, 2) ∧
    MkdirAll ModelOps ⟨[[['a'], ['b']], [['a']]], []⟩ ['a', '/', 'b'] 0 =
      (.ok (), ⟨[[['a'], ['b']], [['a']]], []⟩, 0) := by
  have h1 : MkdirAll ModelOps ⟨[], []⟩ ['a'] 0 = (.ok (), ⟨[[['a']]], []⟩, 1) :=
    MkdirAll_slow_mkok (mstat_none (by decide))
      (by rw [if_neg (by decide)]; exact ⟨rfl, rfl⟩) (by decide)
  have h2 : MkdirAll ModelOps ⟨[], []⟩ ['a', '/', 'b'] 0 =
      (.ok (), ⟨[[['a'], ['b']], [['a']]], []⟩, 2) := by
    have hpar : if 1 < elemStart ['a', '/', 'b'] then
        MkdirAll ModelOps ⟨[], []⟩
          ((['a', '/', 'b'] : List Char).take (elemStart ['a', '/', 'b'] - 1)) 0 =
          (.ok (), (⟨[[['a']]], []⟩ : ModelFS), 1)
      else (⟨[[['a']]], []⟩ : ModelFS) = ⟨[], []⟩ ∧ (1 : Nat) = 0 := by
      rw [if_pos (by decide)]
      have ht : (['a', '/', 'b'] : List Char).take (elemStart ['a', '/', 'b'] - 1) =
          ['a'] := by decide
      rw [ht]
      exact h1
    exact MkdirAll_slow_mkok (mstat_none (by decide)) hpar (by decide)
  exact ⟨h2, (C2_mkdirAll_idempotent h2).2⟩

/-- C3: on a well-formed filesystem in which a file occupies the target or
an ancestor component of the path, `MkdirAll` fails with a
`"mkdir" … ENOTDIR` path error, invokes the create primitive zero times,
and leaves the filesystem exactly as it was. -/
theorem C3_mkdirAll_file_in_path (p : List Char) (fs : ModelFS) (perm : Nat)
    (hwf : fs.WF)
    (hocc : ∃ f, f ≠ [] ∧ f <+: components p ∧ f ∈ fs.files) :
    ∃ q, MkdirAll ModelOps fs p perm =
      (.error (.path ⟨"mkdir", q, some .ENOTDIR⟩), fs, 0) :=
  MkdirAll_model_file_blocks perm p.length p fs le_rfl hwf hocc

/-- C3 witness: with a file at `"a"`, `MkdirAll "a/b"` fails with an
ENOTDIR mkdir path error and changes nothing. -/
theorem C3_witness :
    ∃ q, MkdirAll ModelOps ⟨[], [[['a']]]⟩ ['a', '/', 'b'] 0 =
      (.error (.path ⟨"mkdir", q, some .ENOTDIR⟩), ⟨[], [[['a']]]⟩, 0) :=
  C3_mkdirAll_file_in_path ['a', '/', 'b'] ⟨[], [[['a']]]⟩ 0 (by decide)
    ⟨[['a']], by decide, by decide, by decide⟩

/-! ## The raw directory-entry name parser (`direntName`) -/

/-- Go's `byte(c)` for an `int8` value `c`: the low 8 bits, two's
complement. -/
def byteOf (c : Int) : Nat := (c.emod 256).toNat

/-- The loop of `direntName` over `dirent.Name` (`for i, c := range`):
break at a zero byte or once the index exceeds 255, else append `byte(c)`.
A Go string is a byte sequence, rendered here as `List Char` (each `Char`
one byte). -/
def direntNameAux : List Int → Nat → List Char
  | [], _ => []
  | c :: rest, i =>
    if c = 0 ∨ i > 255 then []
    else Char.ofNat (byteOf c) :: direntNameAux rest (i + 1)

/-- `direntName` from the source, on the raw fixed-size name buffer
(`[256]int8` in `syscall.Dirent`). -/
def direntName (buf : List Int) : List Char := direntNameAux buf 0

theorem direntNameAux_eq (buf : List Int) : ∀ i : Nat, i + buf.length ≤ 256 →
    direntNameAux buf i =
      (buf.takeWhile (fun c => decide (c ≠ 0))).map (fun c => Char.ofNat (byteOf c)) := by
  induction buf with
  | nil =>
    intro i _
    rfl
  | cons c rest ih =>
    intro i hle
    by_cases hc : c = 0
    · subst hc
      simp [direntNameAux, List.takeWhile_cons]
    · have hi : ¬ i > 255 := by
        simp only [List.length_cons] at hle
        omega
      rw [direntNameAux, if_neg (by push_neg; exact ⟨hc, by omega⟩)]
      rw [List.takeWhile_cons, if_pos (by simpa using hc)]
      rw [List.map_cons]
      rw [ih (i + 1) (by simp only [List.length_cons] at hle; omega)]

/-- C5: on the declared 256-byte name buffer, `direntName` yields exactly
the bytes up to the first zero byte (capped by the buffer end), stays
within the declared bound, and parses a fully-used buffer with no
terminating zero to its full declared length of 256 bytes. -/
theorem C5_direntName_bounded (buf : List Int) (hlen : buf.length = 256) :
    direntName buf =
      (buf.takeWhile (fun c => decide (c ≠ 0))).map (fun c => Char.ofNat (byteOf c)) ∧
    (direntName buf).length ≤ 256 ∧
    ((∀ c ∈ buf, c ≠ 0) → (direntName buf).length = 256) := by
  have hmain : direntName buf =
      (buf.takeWhile (fun c => decide (c ≠ 0))).map (fun c => Char.ofNat (byteOf c)) :=
    direntNameAux_eq buf 0 (by omega)
  refine ⟨hmain, ?_, ?_⟩
  · rw [hmain, List.length_map]
    calc (buf.takeWhile (fun c => decide (c ≠ 0))).length ≤ buf.length :=
        (List.takeWhile_prefix _).length_le
      _ = 256 := hlen
  · intro hall
    rw [hmain, List.length_map]
    have : buf.takeWhile (fun c => decide (c ≠ 0)) = buf := by
      rw [List.takeWhile_eq_self_iff]
      intro c hc
      simpa using hall c hc
    rw [this, hlen]

/-- C5 witness: a 256-byte buffer with no zero byte parses to its full
declared length. -/
theorem C5_witness :
    (List.replicate 256 (1 : Int)).length = 256 ∧
    (direntName (List.replicate 256 (1 : Int))).length = 256 := by
  have h := C5_direntName_bounded (List.replicate 256 1) (List.length_replicate 256 1)
  refine ⟨List.length_replicate 256 1, h.2.2 ?_⟩
  intro c hc
  rw [List.eq_of_mem_replicate hc]
  decide

/-! ## Directory enumeration (`Fd.Readdir`, `Fd.Readdirnames`) -/

/-- Modelled from the spec: the raw remote directory entry
(`syscall.Dirent`) — a fixed-size, not necessarily usefully
null-terminated name buffer. -/
structure Dirent where
  Name : List Int
  deriving DecidableEq, Repr

/-- Modelled from the spec: the stat buffer (`syscall.Stat_t`) fields the
binding consumes — mode bits and size. -/
structure Stat_t where
  Mode : Nat
  Size : Int
  deriving DecidableEq, Repr

/-- Modelled from the spec: `fileInfoFromStat` (defined in a repository
file not included under `src/`) converts a stat buffer plus a name into
the host metadata value; the directory flag comes from the S_IFMT bits of
the mode (S_IFDIR = 0x4000). -/
def fileInfoFromStat (st : Stat_t) (name : List Char) : FileInfo :=
  ⟨name, decide (Nat.land st.Mode 0xF000 = 0x4000)⟩

/-- Modelled from the spec: the remote directory stream behind an open
directory descriptor — the entries not yet consumed, in order.  Each read
yields the next entry or NULL at end of stream; the errno side channel
stays clear in this pure model (end of directory is a distinct empty
result, not an error). -/
structure DirStream where
  pending : List (Dirent × Stat_t)
  deriving DecidableEq, Repr

/-- Modelled from the spec: `glfs_readdirplus` — next raw entry plus its
stat, or NULL at end; second component is the cgo errno. -/
def glfs_readdirplus (ds : DirStream) :
    (Option (Dirent × Stat_t) × Option Errno) × DirStream :=
  match ds.pending with
  | [] => ((none, none), ds)
  | e :: rest => ((some e, none), ⟨rest⟩)

/-- Modelled from the spec: `glfs_readdir` — names-only variant over the
same stream. -/
def glfs_readdir (ds : DirStream) : (Option Dirent × Option Errno) × DirStream :=
  match ds.pending with
  | [] => ((none, none), ds)
  | e :: rest => ((some e.1, none), ⟨rest⟩)

theorem readdirplus_some_len {ds ds' : DirStream} {et : Dirent × Stat_t}
    {oe : Option Errno}
    (h : glfs_readdirplus ds = ((some et, oe), ds')) :
    ds'.pending.length < ds.pending.length := by
  unfold glfs_readdirplus at h
  rcases hp : ds.pending with _ | ⟨e, rest⟩
  · rw [hp] at h
    simp at h
  · rw [hp] at h
    have h2 : ds' = ⟨rest⟩ := (((Prod.mk.injEq _ _ _ _).mp h).2).symm
    rw [h2]
    simp

theorem readdir_some_len {ds ds' : DirStream} {d : Dirent} {oe : Option Errno}
    (h : glfs_readdir ds = ((some d, oe), ds')) :
    ds'.pending.length < ds.pending.length := by
  unfold glfs_readdir at h
  rcases hp : ds.pending with _ | ⟨e, rest⟩
  · rw [hp] at h
    simp at h
  · rw [hp] at h
    have h2 : ds' = ⟨rest⟩ := (((Prod.mk.injEq _ _ _ _).mp h).2).symm
    rw [h2]
    simp

/-- The loop of `Fd.Readdir` (`for i := 0; n == 0 || i < n; i++`): read
the next entry with its stat, fail on errno, stop on NULL, else convert
through `fileInfoFromStat` and accumulate. -/
def ReaddirLoop (ds : DirStream) (n : Int) (i : Nat) (files : List FileInfo) :
    Except GError (List FileInfo) × DirStream :=
  if n = 0 ∨ (i : Int) < n then
    match hm : glfs_readdirplus ds with
    | ((_, some e), ds') => (.error (.errno e), ds')
    | ((none, none), ds') => (.ok files, ds')
    | ((some et, none), ds') =>
      ReaddirLoop ds' n (i + 1) (files ++ [fileInfoFromStat et.2 (direntName et.1.Name)])
  else (.ok files, ds)
termination_by ds.pending.length
decreasing_by exact readdirplus_some_len hm

/-- `Fd.Readdir` translated from the source (the descriptor is its
directory stream; `n` is the maximum-count argument). -/
def Readdir (fd : DirStream) (n : Int) : Except GError (List FileInfo) × DirStream :=
  ReaddirLoop fd n 0 []

/-- The loop of `Fd.Readdirnames`: like `ReaddirLoop` but names only. -/
def ReaddirnamesLoop (ds : DirStream) (n : Int) (i : Nat) (names : List (List Char)) :
    Except GError (List (List Char)) × DirStream :=
  if n = 0 ∨ (i : Int) < n then
    match hm : glfs_readdir ds with
    | ((_, some e), ds') => (.error (.errno e), ds')
    | ((none, none), ds') => (.ok names, ds')
    | ((some d, none), ds') =>
      ReaddirnamesLoop ds' n (i + 1) (names ++ [direntName d.Name])
  else (.ok names, ds)
termination_by ds.pending.length
decreasing_by exact readdir_some_len hm

/-- `Fd.Readdirnames` translated from the source. -/
def Readdirnames (fd : DirStream) (n : Int) :
    Except GError (List (List Char)) × DirStream :=
  ReaddirnamesLoop fd n 0 []

/-! ### Behaviour of the enumeration loops -/

theorem ReaddirLoop_nil (n : Int) (i : Nat) (acc : List FileInfo) :
    ReaddirLoop ⟨[]⟩ n i acc = (.ok acc, ⟨[]⟩) := by
  rw [ReaddirLoop]
  by_cases hc : n = 0 ∨ (i : Int) < n
  · rw [if_pos hc]
    rfl
  · rw [if_neg hc]

theorem ReaddirLoop_zero (l : List (Dirent × Stat_t)) :
    ∀ (i : Nat) (acc : List FileInfo),
    ReaddirLoop ⟨l⟩ 0 i acc =
      (.ok (acc ++ l.map (fun et => fileInfoFromStat et.2 (direntName et.1.Name))),
       ⟨[]⟩) := by
  induction l with
  | nil =>
    intro i acc
    rw [ReaddirLoop_nil]
    simp
  | cons e rest ih =>
    intro i acc
    rw [ReaddirLoop, if_pos (Or.inl rfl)]
    show ReaddirLoop ⟨rest⟩ 0 (i + 1)
        (acc ++ [fileInfoFromStat e.2 (direntName e.1.Name)]) = _
    rw [ih]
    simp

theorem ReaddirLoop_pos (n : Int) (hn : 0 < n) (l : List (Dirent × Stat_t)) :
    ∀ (i : Nat) (acc : List FileInfo), (i : Int) < n →
    ReaddirLoop ⟨l⟩ n i acc =
      (.ok (acc ++ (l.take (n - i).toNat).map
        (fun et => fileInfoFromStat et.2 (direntName et.1.Name))),
       ⟨l.drop (n - i).toNat⟩) := by
  induction l with
  | nil =>
    intro i acc hi
    rw [ReaddirLoop_nil]
    simp
  | cons e rest ih =>
    intro i acc hi
    rw [ReaddirLoop, if_pos (Or.inr hi)]
    show ReaddirLoop ⟨rest⟩ n (i + 1)
        (acc ++ [fileInfoFromStat e.2 (direntName e.1.Name)]) = _
    by_cases hi1 : ((i + 1 : Nat) : Int) < n
    · rw [ih (i + 1) _ hi1]
      have ht : (n - i).toNat = (n - (i + 1 : Nat)).toNat + 1 := by
        push_cast
        omega
      rw [ht]
      simp
    · rw [ReaddirLoop,
        if_neg (by push_neg; refine ⟨by omega, ?_⟩; push_cast at hi1 ⊢; omega)]
      have ht : (n - i).toNat = 1 := by
        push_cast at hi1
        omega
      rw [ht]
      simp

theorem ReaddirnamesLoop_nil (n : Int) (i : Nat) (acc : List (List Char)) :
    ReaddirnamesLoop ⟨[]⟩ n i acc = (.ok acc, ⟨[]⟩) := by
  rw [ReaddirnamesLoop]
  by_cases hc : n = 0 ∨ (i : Int) < n
  · rw [if_pos hc]
    rfl
  · rw [if_neg hc]

theorem ReaddirnamesLoop_zero (l : List (Dirent × Stat_t)) :
    ∀ (i : Nat) (acc : List (List Char)),
    ReaddirnamesLoop ⟨l⟩ 0 i acc =
      (.ok (acc ++ l.map (fun et => direntName et.1.Name)), ⟨[]⟩) := by
  induction l with
  | nil =>
    intro i acc
    rw [ReaddirnamesLoop_nil]
    simp
  | cons e rest ih =>
    intro i acc
    rw [ReaddirnamesLoop, if_pos (Or.inl rfl)]
    show ReaddirnamesLoop ⟨rest⟩ 0 (i + 1) (acc ++ [direntName e.1.Name]) = _
    rw [ih]
    simp

theorem ReaddirnamesLoop_pos (n : Int) (hn : 0 < n) (l : List (Dirent × Stat_t)) :
    ∀ (i : Nat) (acc : List (List Char)), (i : Int) < n →
    ReaddirnamesLoop ⟨l⟩ n i acc =
      (.ok (acc ++ (l.take (n - i).toNat).map (fun et => direntName et.1.Name)),
       ⟨l.drop (n - i).toNat⟩) := by
  induction l with
  | nil =>
    intro i acc hi
    rw [ReaddirnamesLoop_nil]
    simp
  | cons e rest ih =>
    intro i acc hi
    rw [ReaddirnamesLoop, if_pos (Or.inr hi)]
    show ReaddirnamesLoop ⟨rest⟩ n (i + 1) (acc ++ [direntName e.1.Name]) = _
    by_cases hi1 : ((i + 1 : Nat) : Int) < n
    · rw [ih (i + 1) _ hi1]
      have ht : (n - i).toNat = (n - (i + 1 : Nat)).toNat + 1 := by
        push_cast
        omega
      rw [ht]
      simp
    · rw [ReaddirnamesLoop,
        if_neg (by push_neg; refine ⟨by omega, ?_⟩; push_cast at hi1 ⊢; omega)]
      have ht : (n - i).toNat = 1 := by
        push_cast at hi1
        omega
      rw [ht]
      simp

theorem Readdir_zero (l : List (Dirent × Stat_t)) :
    Readdir ⟨l⟩ 0 =
      (.ok (l.map (fun et => fileInfoFromStat et.2 (direntName et.1.Name))), ⟨[]⟩) := by
  rw [Readdir, ReaddirLoop_zero]
  simp

theorem Readdir_pos (l : List (Dirent × Stat_t)) (n : Int) (hn : 0 < n) :
    Readdir ⟨l⟩ n =
      (.ok ((l.take n.toNat).map
        (fun et => fileInfoFromStat et.2 (direntName et.1.Name))),
       ⟨l.drop n.toNat⟩) := by
  rw [Readdir, ReaddirLoop_pos n hn l 0 [] (by exact_mod_cast hn)]
  simp

theorem Readdir_exhausted (n : Int) : Readdir ⟨[]⟩ n = (.ok [], ⟨[]⟩) :=
  ReaddirLoop_nil n 0 []

theorem Readdirnames_zero (l : List (Dirent × Stat_t)) :
    Readdirnames ⟨l⟩ 0 =
      (.ok (l.map (fun et => direntName et.1.Name)), ⟨[]⟩) := by
  rw [Readdirnames, ReaddirnamesLoop_zero]
  simp

theorem Readdirnames_pos (l : List (Dirent × Stat_t)) (n : Int) (hn : 0 < n) :
    Readdirnames ⟨l⟩ n =
      (.ok ((l.take n.toNat).map (fun et => direntName et.1.Name)),
       ⟨l.drop n.toNat⟩) := by
  rw [Readdirnames, ReaddirnamesLoop_pos n hn l 0 [] (by exact_mod_cast hn)]
  simp

theorem Readdirnames_exhausted (n : Int) : Readdirnames ⟨[]⟩ n = (.ok [], ⟨[]⟩) :=
  ReaddirnamesLoop_nil n 0 []

/-- C4 (amended): for both enumeration variants, a maximum-count of 0
returns every remaining entry in one call; a positive n returns at most n
entries — exactly the next n available — and leaves the stream positioned
after them, so a subsequent call resumes where the previous one stopped;
an exhausted directory yields an empty result with a nil error, not an
error.  (Against 5 entries, repeated max-count-2 calls yield 2, 2, 1,
then empty; the remaining 3 after the first call are returned in one call
only by passing max-count 0, not by a second max-count-2 call.) -/
theorem C4_enumeration_pagination (l : List (Dirent × Stat_t)) (n : Int) :
    (Readdir ⟨l⟩ 0 =
      (.ok (l.map (fun et => fileInfoFromStat et.2 (direntName et.1.Name))), ⟨[]⟩)) ∧
    (0 < n → Readdir ⟨l⟩ n =
      (.ok ((l.take n.toNat).map
        (fun et => fileInfoFromStat et.2 (direntName et.1.Name))),
       ⟨l.drop n.toNat⟩)) ∧
    (Readdir ⟨[]⟩ n = (.ok [], ⟨[]⟩)) ∧
    (Readdirnames ⟨l⟩ 0 =
      (.ok (l.map (fun et => direntName et.1.Name)), ⟨[]⟩)) ∧
    (0 < n → Readdirnames ⟨l⟩ n =
      (.ok ((l.take n.toNat).map (fun et => direntName et.1.Name)),
       ⟨l.drop n.toNat⟩)) ∧
    (Readdirnames ⟨[]⟩ n = (.ok [], ⟨[]⟩)) :=
  ⟨Readdir_zero l, Readdir_pos l n, Readdir_exhausted n,
   Readdirnames_zero l, Readdirnames_pos l n, Readdirnames_exhausted n⟩

/-- C4 counterexample: with maximum-count 2 against five entries
"1","2","3","4","5", the first call returns "1","2" and the second
max-count-2 call returns exactly the two entries "3","4" — not the
remaining three, as the claim's worked example ("yields 2, then 3, then
empty") asserts. -/
theorem C4_counterexample :
    Readdirnames ⟨[(⟨[49]⟩, ⟨0, 0⟩), (⟨[50]⟩, ⟨0, 0⟩), (⟨[51]⟩, ⟨0, 0⟩),
        (⟨[52]⟩, ⟨0, 0⟩), (⟨[53]⟩, ⟨0, 0⟩)]⟩ 2 =
      (.ok [['1'], ['2']],
       ⟨[(⟨[51]⟩, ⟨0, 0⟩), (⟨[52]⟩, ⟨0, 0⟩), (⟨[53]⟩, ⟨0, 0⟩)]⟩) ∧
    Readdirnames ⟨[(⟨[51]⟩, ⟨0, 0⟩), (⟨[52]⟩, ⟨0, 0⟩), (⟨[53]⟩, ⟨0, 0⟩)]⟩ 2 =
      (.ok [['3'], ['4']], ⟨[(⟨[53]⟩, ⟨0, 0⟩)]⟩) ∧
    (∀ (names : List (List Char)) (stream : DirStream),
      Readdirnames ⟨[(⟨[51]⟩, ⟨0, 0⟩), (⟨[52]⟩, ⟨0, 0⟩), (⟨[53]⟩, ⟨0, 0⟩)]⟩ 2 =
        (.ok names, stream) →
      names.length = 2 ∧ names ≠ [['3'], ['4'], ['5']]) := by
  refine ⟨?_, ?_, ?_⟩
  · rw [Readdirnames_pos _ 2 (by norm_num)]
    rfl
  · rw [Readdirnames_pos _ 2 (by norm_num)]
    rfl
  · intro names stream hcon
    rw [Readdirnames_pos _ 2 (by norm_num)] at hcon
    have h1 := ((Prod.mk.injEq _ _ _ _).mp hcon).1
    have h2 : names = [['3'], ['4']] := by
      injection h1 with h3
      exact h3.symm
    subst h2
    exact ⟨rfl, by decide⟩

/-- C4 witness: repeated max-count-2 calls against five entries yield 2,
then 2, then 1, then an empty (nil-error) result; a max-count-0 call on
the 3-entry remainder returns all 3 at once; the metadata variant
paginates identically. -/
theorem C4_witness :
    Readdirnames ⟨[(⟨[49]⟩, ⟨0, 0⟩), (⟨[50]⟩, ⟨0, 0⟩), (⟨[51]⟩, ⟨0, 0⟩),
        (⟨[52]⟩, ⟨0, 0⟩), (⟨[53]⟩, ⟨0, 0⟩)]⟩ 2 =
      (.ok [['1'], ['2']],
       ⟨[(⟨[51]⟩, ⟨0, 0⟩), (⟨[52]⟩, ⟨0, 0⟩), (⟨[53]⟩, ⟨0, 0⟩)]⟩) ∧
    Readdirnames ⟨[(⟨[51]⟩, ⟨0, 0⟩), (⟨[52]⟩, ⟨0, 0⟩), (⟨[53]⟩, ⟨0, 0⟩)]⟩ 2 =
      (.ok [['3'], ['4']], ⟨[(⟨[53]⟩, ⟨0, 0⟩)]⟩) ∧
    Readdirnames ⟨[(⟨[53]⟩, ⟨0, 0⟩)]⟩ 2 = (.ok [['5']], ⟨[]⟩) ∧
    Readdirnames ⟨[]⟩ 2 = (.ok [], ⟨[]⟩) ∧
    Readdirnames ⟨[(⟨[51]⟩, ⟨0, 0⟩), (⟨[52]⟩, ⟨0, 0⟩), (⟨[53]⟩, ⟨0, 0⟩)]⟩ 0 =
      (.ok [['3'], ['4'], ['5']], ⟨[]⟩) ∧
    Readdir ⟨[(⟨[49]⟩, ⟨0, 0⟩), (⟨[50]⟩, ⟨0, 0⟩), (⟨[51]⟩, ⟨0, 0⟩),
        (⟨[52]⟩, ⟨0, 0⟩), (⟨[53]⟩, ⟨0, 0⟩)]⟩ 2 =
      (.ok [⟨['1'], false⟩, ⟨['2'], false⟩],
       ⟨[(⟨[51]⟩, ⟨0, 0⟩), (⟨[52]⟩, ⟨0, 0⟩), (⟨[53]⟩, ⟨0, 0⟩)]⟩) := by
  have h5 := C4_enumeration_pagination [(⟨[49]⟩, ⟨0, 0⟩), (⟨[50]⟩, ⟨0, 0⟩),
    (⟨[51]⟩, ⟨0, 0⟩), (⟨[52]⟩, ⟨0, 0⟩), (⟨[53]⟩, ⟨0, 0⟩)] 2
  have h3 := C4_enumeration_pagination [(⟨[51]⟩, ⟨0, 0⟩), (⟨[52]⟩, ⟨0, 0⟩),
    (⟨[53]⟩, ⟨0, 0⟩)] 2
  have h1 := C4_enumeration_pagination [(⟨[53]⟩, ⟨0, 0⟩)] 2
  refine ⟨?_, ?_, ?_, ?_, ?_, ?_⟩
  · rw [h5.2.2.2.2.1 (by norm_num)]
    rfl
  · rw [h3.2.2.2.2.1 (by norm_num)]
    rfl
  · rw [h1.2.2.2.2.1 (by norm_num)]
    rfl
  · exact h5.2.2.2.2.2
  · rw [h3.2.2.2.1]
    rfl
  · rw [h5.2.1 (by norm_num)]
    rfl

/-! ## Buffer marshalling of the I/O calls (`Read`, `Write`, `Pread`,
`Pwrite`, `Readlink`) -/

/-- The pointer a call passes as the buffer argument of the remote
primitive. -/
inductive CPtr
  | bufAddr
  | sentinelZero
  deriving DecidableEq, Repr

/-- What happens before the remote primitive is reached: the arguments are
marshalled, or the Go runtime panics (e.g. indexing an empty slice). -/
inductive Outcome (α : Type)
  | ok (a : α)
  | panicked
  deriving DecidableEq, Repr

/-- The (pointer, byte count) pair handed to the remote call. -/
structure CallArgs where
  ptr : CPtr
  count : Nat
  deriving DecidableEq, Repr

/-- Go's `&b[0]`: indexing panics on an empty slice, otherwise it is the
address of the first element. -/
def index0Addr (b : List Nat) : Outcome CPtr :=
  if b.length = 0 then .panicked else .ok .bufAddr

/-- Argument marshalling of `Fd.Read`: `p0 = &b[0]` when `len(b) > 0`,
else the non-null zero-length sentinel `&_zero`. -/
def ReadArgs (b : List Nat) : Outcome CallArgs :=
  if 0 < b.length then .ok ⟨.bufAddr, b.length⟩ else .ok ⟨.sentinelZero, b.length⟩

/-- Argument marshalling of `Fd.Write`: identical selection to `Fd.Read`. -/
def WriteArgs (b : List Nat) : Outcome CallArgs :=
  if 0 < b.length then .ok ⟨.bufAddr, b.length⟩ else .ok ⟨.sentinelZero, b.length⟩

/-- Argument marshalling of `Fd.Pread`: `unsafe.Pointer(&b[0])`
unconditionally, with no zero-length check. -/
def PreadArgs (b : List Nat) : Outcome CallArgs :=
  match index0Addr b with
  | .panicked => .panicked
  | .ok p => .ok ⟨p, b.length⟩

/-- Argument marshalling of `Fd.Pwrite`: identical to `Fd.Pread`. -/
def PwriteArgs (b : List Nat) : Outcome CallArgs :=
  match index0Addr b with
  | .panicked => .panicked
  | .ok p => .ok ⟨p, b.length⟩

/-- Argument marshalling of `Volume.Readlink`: the source declares
`var buf []byte` (the nil slice, length zero) and immediately evaluates
`unsafe.Pointer(&buf[0])`; the path plays no part in the marshalling. -/
def ReadlinkArgs (_path : List Char) : Outcome CallArgs :=
  let buf : List Nat := []
  match index0Addr buf with
  | .panicked => .panicked
  | .ok p => .ok ⟨p, buf.length⟩

/-- C6 counterexample: the claim asserts all four operations pass the
non-null zero-length sentinel on an empty buffer, but positioned reads and
writes index the empty buffer's first element and panic before any remote
call. -/
theorem C6_counterexample :
    PreadArgs [] = .panicked ∧
    PwriteArgs [] = .panicked ∧
    PreadArgs [] ≠ .ok ⟨.sentinelZero, 0⟩ ∧
    PwriteArgs [] ≠ .ok ⟨.sentinelZero, 0⟩ := by
  decide

/-- C6 (amended): on a zero-length buffer the sequential `Read` and
`Write` pass the distinct non-null zero-length sentinel to the remote
call; the positioned `Pread` and `Pwrite` perform no such handling — they
index the first element of the empty slice and panic. -/
theorem C6_zero_length_buffers (b : List Nat) (hb : b.length = 0) :
    ReadArgs b = .ok ⟨.sentinelZero, 0⟩ ∧
    WriteArgs b = .ok ⟨.sentinelZero, 0⟩ ∧
    PreadArgs b = .panicked ∧
    PwriteArgs b = .panicked := by
  have hbe : b = [] := List.length_eq_zero.mp hb
  subst hbe
  exact ⟨rfl, rfl, rfl, rfl⟩

/-- C6 witness: the empty buffer. -/
theorem C6_witness :
    ReadArgs [] = .ok ⟨.sentinelZero, 0⟩ ∧
    WriteArgs [] = .ok ⟨.sentinelZero, 0⟩ ∧
    PreadArgs [] = .panicked ∧
    PwriteArgs [] = .panicked :=
  C6_zero_length_buffers [] rfl

/-- C7: `Readlink` can never reach the remote call, let alone treat the
zero-length buffer as a usage error: on every path it indexes element 0 of
its freshly declared zero-length buffer, a runtime panic.  This evaluates
the code at the failing input (any path). -/
theorem C7_readlink_always_panics (p : List Char) :
    ReadlinkArgs p = .panicked := rfl

/-! ## Extended-attribute get (`Volume.Getxattr`, `Fd.Fgetxattr`) -/

/-- Modelled from the spec: the remote `glfs_getxattr`/`glfs_fgetxattr`
against an attribute whose stored value is `val` (`none` = attribute
absent).  Size zero is the size-query mode: it returns the value's byte
length and writes nothing; a buffer at least as large as the value
receives it whole; a positive but insufficient size fails with ERANGE.
Result: (return value, errno, bytes written into the caller's buffer). -/
def glfs_getxattr_model (val : Option (List Nat)) (size : Nat) :
    Int × Option Errno × List Nat :=
  match val with
  | none => (-1, some .ENODATA, [])
  | some v =>
    if size = 0 then ((v.length : Int), none, [])
    else if v.length ≤ size then ((v.length : Int), none, v)
    else (-1, some .ERANGE, [])

/-- `Volume.Getxattr` translated from the source: `len(dest) <= 0` passes
(nil, 0) to the remote call, otherwise (&dest[0], len(dest)); a
non-negative return comes back with a nil error, a negative one with the
errno.  The last component records what the remote call wrote into
`dest`. -/
def Getxattr (val : Option (List Nat)) (dest : List Nat) :
    (Int × Option GError) × List Nat :=
  let r := if dest.length ≤ 0 then glfs_getxattr_model val 0
    else glfs_getxattr_model val dest.length
  if 0 ≤ r.1 then ((r.1, none), r.2.2) else ((r.1, r.2.1.map .errno), r.2.2)

/-- `Fd.Fgetxattr` translated from the source: same structure as
`Volume.Getxattr`, on the descriptor's attribute. -/
def Fgetxattr (val : Option (List Nat)) (dest : List Nat) :
    (Int × Option GError) × List Nat :=
  let r := if dest.length ≤ 0 then glfs_getxattr_model val 0
    else glfs_getxattr_model val dest.length
  if 0 ≤ r.1 then ((r.1, none), r.2.2) else ((r.1, r.2.1.map .errno), r.2.2)

/-- C8: for an attribute with value `v`, a get into a zero-length
destination is a valid size query — it returns the byte length `v.length`
with a nil error and writes nothing — and that length equals the one
returned by a subsequent get into a sufficiently large buffer, for both
the path variant and the descriptor variant. -/
theorem C8_getxattr_size_query (v dest : List Nat) (hdest : v.length ≤ dest.length) :
    Getxattr (some v) [] = (((v.length : Int), none), []) ∧
    Fgetxattr (some v) [] = (((v.length : Int), none), []) ∧
    Getxattr (some v) dest = (((v.length : Int), none), v) ∧
    Fgetxattr (some v) dest = (((v.length : Int), none), v) := by
  have hq : Getxattr (some v) [] = (((v.length : Int), none), []) := by
    unfold Getxattr glfs_getxattr_model
    simp
  have hqf : Fgetxattr (some v) [] = (((v.length : Int), none), []) := by
    unfold Fgetxattr glfs_getxattr_model
    simp
  refine ⟨hq, hqf, ?_, ?_⟩
  · by_cases hd : dest.length ≤ 0
    · have hv : v = [] := by
        have : v.length = 0 := by omega
        exact List.length_eq_zero.mp this
      subst hv
      unfold Getxattr glfs_getxattr_model
      simp [hd]
    · have hr : glfs_getxattr_model (some v) dest.length =
          ((v.length : Int), none, v) := by
        simp only [glfs_getxattr_model]
        rw [if_neg (by omega), if_pos hdest]
      unfold Getxattr
      rw [if_neg hd, hr]
      simp
  · by_cases hd : dest.length ≤ 0
    · have hv : v = [] := by
        have : v.length = 0 := by omega
        exact List.length_eq_zero.mp this
      subst hv
      unfold Fgetxattr glfs_getxattr_model
      simp [hd]
    · have hr : glfs_getxattr_model (some v) dest.length =
          ((v.length : Int), none, v) := by
        simp only [glfs_getxattr_model]
        rw [if_neg (by omega), if_pos hdest]
      unfold Fgetxattr
      rw [if_neg hd, hr]
      simp

/-- C8 witness: a two-byte attribute value and a three-byte buffer. -/
theorem C8_witness :
    Getxattr (some [7, 8]) [] = ((2, none), []) ∧
    Fgetxattr (some [7, 8]) [] = ((2, none), []) ∧
    Getxattr (some [7, 8]) [0, 0, 0] = ((2, none), [7, 8]) ∧
    Fgetxattr (some [7, 8]) [0, 0, 0] = ((2, none), [7, 8]) :=
  C8_getxattr_size_query [7, 8] [0, 0, 0] (by norm_num)

/-! ## Filesystem statistics (`Volume.Statvfs`) -/

/-- Minimal model of the statistics buffer `Statvfs_t`. -/
structure Statvfs_t where
  f_blocks : Nat
  f_bfree : Nat
  deriving DecidableEq, Repr

/-- `Volume.Statvfs` translated from the source: the named return `buf` is
a pointer whose Go zero value is nil and which is never allocated; that
nil pointer is what the remote call receives (the argument of `prim`), and
`buf` — still nil — is what the caller gets back, with the error cleared
whenever the remote status is 0. -/
def Statvfs (prim : Option Statvfs_t → Int × Option Errno) (_path : List Char) :
    Option Statvfs_t × Option GError :=
  let buf : Option Statvfs_t := none
  let r := prim buf
  if r.1 = 0 then (buf, none) else (buf, r.2.map .errno)

/-- C9: whatever the remote call does, `Statvfs` hands it a nil buffer
pointer and returns a nil statistics buffer — in particular, on a
successful remote status (0) the caller receives `(nil, nil)` instead of
the populated non-nil buffer the claim describes. -/
theorem C9_statvfs_nil_buffer (prim : Option Statvfs_t → Int × Option Errno)
    (p : List Char) :
    (Statvfs prim p).1 = none ∧
    ((prim none).1 = 0 → Statvfs prim p = (none, none)) := by
  constructor
  · unfold Statvfs
    by_cases h : (prim none).1 = 0
    · simp [h]
    · simp [h]
  · intro h0
    unfold Statvfs
    simp [h0]

/-- C9 witness: a remote call that reports success; the caller still
receives a nil buffer. -/
theorem C9_witness :
    Statvfs (fun _ => (0, none)) ['/'] = (none, none) :=
  (C9_statvfs_nil_buffer (fun _ => (0, none)) ['/']).2 rfl

/-! ## Opening files and directories (`Volume.Open`, `Volume.OpenFile`) -/

/-- The outcome of one remote open-style call as cgo reports it: the
returned descriptor pointer (`none` = NULL) and the errno side channel. -/
structure CallRes where
  fd : Option Nat
  err : Option Errno
  deriving DecidableEq, Repr

/-- A sane cgo outcome: errno is reported exactly when the call returned
NULL (failure sets errno, success leaves it clear). -/
def CallRes.Sane (r : CallRes) : Prop := (r.err ≠ none) ↔ r.fd = none

instance (r : CallRes) : Decidable r.Sane := by
  unfold CallRes.Sane
  infer_instance

/-- Model of the `File` value built by `Open`/`OpenFile`:
`File{name, Fd{cfd}, isDir}`. -/
structure GFile where
  name : List Char
  fd : Nat
  isDir : Bool
  deriving DecidableEq, Repr

/-- `Volume.Open` translated from the source: try `glfs_open` (outcome
`openRes`); if the errno is EISDIR, reopen with `glfs_opendir` (outcome
`opendirRes`) and set the directory flag; a nil final descriptor yields
`&os.PathError{"open", name, err}`. -/
def Open (name : List Char) (openRes opendirRes : CallRes) : Except GError GFile :=
  let isDir := false
  let cfd := openRes.fd
  let err := openRes.err
  let r := if err = some .EISDIR then (opendirRes.fd, opendirRes.err, true)
    else (cfd, err, isDir)
  match r.1 with
  | none => .error (.path ⟨"open", name, r.2.1⟩)
  | some f => .ok ⟨name, f, r.2.2⟩

/-- `os.O_CREATE` (= `syscall.O_CREAT`) on the linux build. -/
def O_CREATE : Nat := 64

/-- `Volume.OpenFile` translated from the source: with O_CREATE among the
flags the initial attempt is `glfs_creat` (outcome `creatRes`), otherwise
`glfs_open` (outcome `openRes`); the EISDIR fallback and the error
dressing are exactly as in `Open`. -/
def OpenFile (name : List Char) (flags : Nat)
    (creatRes openRes opendirRes : CallRes) : Except GError GFile :=
  let isDir := false
  let init := if Nat.land O_CREATE flags = O_CREATE then (creatRes.fd, creatRes.err)
    else (openRes.fd, openRes.err)
  let r := if init.2 = some .EISDIR then (opendirRes.fd, opendirRes.err, true)
    else (init.1, init.2, isDir)
  match r.1 with
  | none => .error (.path ⟨"open", name, r.2.1⟩)
  | some f => .ok ⟨name, f, r.2.2⟩

theorem Open_eisdir_ok {name : List Char} {openRes opendirRes : CallRes} {f0 : Nat}
    (he : openRes.err = some .EISDIR) (hf : opendirRes.fd = some f0) :
    Open name openRes opendirRes = .ok ⟨name, f0, true⟩ := by
  simp [Open, he, hf]

theorem Open_eisdir_err {name : List Char} {openRes opendirRes : CallRes}
    (he : openRes.err = some .EISDIR) (hf : opendirRes.fd = none) :
    Open name openRes opendirRes = .error (.path ⟨"open", name, opendirRes.err⟩) := by
  simp [Open, he, hf]

theorem Open_plain_ok {name : List Char} {openRes opendirRes : CallRes} {f0 : Nat}
    (he : ¬ openRes.err = some .EISDIR) (hf : openRes.fd = some f0) :
    Open name openRes opendirRes = .ok ⟨name, f0, false⟩ := by
  simp [Open, he, hf]

theorem Open_plain_err {name : List Char} {openRes opendirRes : CallRes}
    (he : ¬ openRes.err = some .EISDIR) (hf : openRes.fd = none) :
    Open name openRes opendirRes = .error (.path ⟨"open", name, openRes.err⟩) := by
  simp [Open, he, hf]

/-- `OpenFile` is `Open` with the initial attempt selected by O_CREATE. -/
theorem OpenFile_eq_Open (name : List Char) (flags : Nat)
    (creatRes openRes opendirRes : CallRes) :
    OpenFile name flags creatRes openRes opendirRes =
      Open name (if Nat.land O_CREATE flags = O_CREATE then creatRes else openRes)
        opendirRes := by
  by_cases hc : Nat.land O_CREATE flags = O_CREATE
  · simp [OpenFile, Open, hc]
  · simp [OpenFile, Open, hc]

/-- Behaviour of `Open`'s directory flag for a sane initial-attempt
outcome `ir`: the flag is true on success exactly when the initial errno
was EISDIR and the opendir fallback produced a descriptor; an EISDIR
initial attempt with a succeeding fallback opens as a directory; a
successful initial attempt (a regular file) opens with the flag false. -/
theorem Open_flag_spec (name : List Char) (ir opendirRes : CallRes) (hs : ir.Sane) :
    (∀ f, Open name ir opendirRes = .ok f →
      (f.isDir = true ↔ (ir.err = some .EISDIR ∧ opendirRes.fd ≠ none))) ∧
    (ir.err = some .EISDIR → opendirRes.fd ≠ none →
      ∃ f, Open name ir opendirRes = .ok f ∧ f.isDir = true) ∧
    (∀ f0, ir.fd = some f0 → Open name ir opendirRes = .ok ⟨name, f0, false⟩) := by
  refine ⟨?_, ?_, ?_⟩
  · intro f hok
    constructor
    · intro hflag
      by_cases he : ir.err = some .EISDIR
      · refine ⟨he, ?_⟩
        rcases hf : opendirRes.fd with _ | f0
        · rw [Open_eisdir_err he hf] at hok
          exact absurd hok (by simp)
        · simp
      · exfalso
        rcases hf : ir.fd with _ | f0
        · rw [Open_plain_err he hf] at hok
          exact absurd hok (by simp)
        · rw [Open_plain_ok he hf] at hok
          injection hok with h
          rw [← h] at hflag
          simp at hflag
    · rintro ⟨he, hfd⟩
      rcases hf : opendirRes.fd with _ | f0
      · exact absurd hf hfd
      · rw [Open_eisdir_ok he hf] at hok
        injection hok with h
        rw [← h]
  · intro he hfd
    rcases hf : opendirRes.fd with _ | f0
    · exact absurd hf hfd
    · exact ⟨⟨name, f0, true⟩, Open_eisdir_ok he hf, rfl⟩
  · intro f0 hf
    have he0 : ir.err = none := by
      by_contra hne
      have h2 := hs.mp hne
      rw [hf] at h2
      exact Option.noConfusion h2
    have he : ¬ ir.err = some .EISDIR := by
      rw [he0]
      simp
    exact Open_plain_ok he hf

/-- C10: for sane cgo outcomes (errno reported exactly when the returned
descriptor is NULL), a successful `Open` or `OpenFile` carries a true
directory flag exactly when the initial file-open attempt failed with
EISDIR and the directory-open fallback succeeded; a path that names a
directory therefore opens successfully through the fallback with the flag
set; a descriptor from a successful initial attempt (a regular file)
always carries a false flag.  For `OpenFile` the initial attempt is
`glfs_creat` when O_CREATE is among the flags, `glfs_open` otherwise. -/
theorem C10_open_directory_flag (name : List Char) (flags : Nat)
    (creatRes openRes opendirRes : CallRes)
    (hsopen : openRes.Sane) (hscreat : creatRes.Sane) :
    ((∀ f, Open name openRes opendirRes = .ok f →
      (f.isDir = true ↔ (openRes.err = some .EISDIR ∧ opendirRes.fd ≠ none))) ∧
     (openRes.err = some .EISDIR → opendirRes.fd ≠ none →
      ∃ f, Open name openRes opendirRes = .ok f ∧ f.isDir = true) ∧
     (∀ f0, openRes.fd = some f0 →
      Open name openRes opendirRes = .ok ⟨name, f0, false⟩)) ∧
    ((∀ f, OpenFile name flags creatRes openRes opendirRes = .ok f →
      (f.isDir = true ↔
        ((if Nat.land O_CREATE flags = O_CREATE then creatRes else openRes).err =
            some .EISDIR ∧ opendirRes.fd ≠ none))) ∧
     ((if Nat.land O_CREATE flags = O_CREATE then creatRes else openRes).err =
          some .EISDIR → opendirRes.fd ≠ none →
      ∃ f, OpenFile name flags creatRes openRes opendirRes = .ok f ∧ f.isDir = true) ∧
     (∀ f0, (if Nat.land O_CREATE flags = O_CREATE then creatRes else openRes).fd =
          some f0 →
      OpenFile name flags creatRes openRes opendirRes = .ok ⟨name, f0, false⟩)) := by
  have h1 := Open_flag_spec name openRes opendirRes hsopen
  have hsinit : (if Nat.land O_CREATE flags = O_CREATE then creatRes
      else openRes).Sane := by
    by_cases hc : Nat.land O_CREATE flags = O_CREATE
    · rw [if_pos hc]
      exact hscreat
    · rw [if_neg hc]
      exact hsopen
  have h2 := Open_flag_spec name
    (if Nat.land O_CREATE flags = O_CREATE then creatRes else openRes) opendirRes hsinit
  rw [OpenFile_eq_Open]
  exact ⟨h1, h2⟩

/-- C10 witness: a directory path (EISDIR then opendir succeeds) opens
with the flag set, both for `Open` and for `OpenFile` with O_CREATE; a
regular file (initial open succeeds) opens with the flag false. -/
theorem C10_witness :
    (∃ f, Open ['d'] ⟨none, some .EISDIR⟩ ⟨some 3, none⟩ = .ok f ∧ f.isDir = true) ∧
    Open ['f'] ⟨some 7, none⟩ ⟨some 3, none⟩ = .ok ⟨['f'], 7, false⟩ ∧
    (∃ f, OpenFile ['d'] 64 ⟨none, some .EISDIR⟩ ⟨some 9, none⟩ ⟨some 3, none⟩ =
      .ok f ∧ f.isDir = true) := by
  have ha := C10_open_directory_flag ['d'] 0 ⟨some 5, none⟩ ⟨none, some .EISDIR⟩
    ⟨some 3, none⟩ (by decide) (by decide)
  have hb := C10_open_directory_flag ['f'] 0 ⟨some 5, none⟩ ⟨some 7, none⟩
    ⟨some 3, none⟩ (by decide) (by decide)
  have hc := C10_open_directory_flag ['d'] 64 ⟨none, some .EISDIR⟩ ⟨some 9, none⟩
    ⟨some 3, none⟩ (by decide) (by decide)
  refine ⟨ha.1.2.1 rfl (by decide), hb.1.2.2 7 rfl, ?_⟩
  exact hc.2.2.1 (by decide) (by decide)

end Gfapi
